import Mathlib

/-!
Shallow embedding of the dreamlab-core entity/synchronisation core
(`src/network/client.ts`, `src/network/sync.ts`, `src/physics.ts`)
together with theorems settling the frozen claims about it.

JSON-serialisable values (the `Jsonifiable` payloads of synced values and
the loose spawnable definitions) are modelled by the inductive `JsonValue`;
numbers are rationals, which is exact for every value the claims touch.
-/

/-- JSON-compatible runtime values: the payloads of `SyncedValue` cells and
the loose definitions handed to `spawn`. -/
inductive JsonValue where
  | null : JsonValue
  | bool (b : Bool) : JsonValue
  | num (q : ℚ) : JsonValue
  | str (s : String) : JsonValue
  | arr (xs : List JsonValue) : JsonValue
  | obj (fields : List (String × JsonValue)) : JsonValue
mutual

/-- Deep structural equality as computed by `fast-deep-equal` (the
`equal` helper of `src/network/sync.ts`): primitives by `===`, arrays by
length and
pointwise equality, objects by key count and per-key lookup (insensitive to
key order). -/
def deepEqual : JsonValue → JsonValue → Bool
  | .null, .null => true
  | .bool a, .bool b => a == b
  | .num a, .num b => a == b
  | .str a, .str b => a == b
  | .arr a, .arr b => deepEqualList a b
  | .obj a, .obj b => a.length == b.length && deepEqualObj a b
  | _, _ => false

def deepEqualList : List JsonValue → List JsonValue → Bool
  | [], [] => true
  | x :: xs, y :: ys => deepEqual x y && deepEqualList xs ys
  | _, _ => false

def deepEqualObj : List (String × JsonValue) → List (String × JsonValue) → Bool
  | [], _ => true
  | (k, v) :: tl, b =>
    (match b.lookup k with
      | some w => deepEqual v w
      | none => false) && deepEqualObj tl b

end

example : deepEqual (.obj [("a", .num 1), ("b", .num 2)])
    (.obj [("b", .num 2), ("a", .num 1)]) = true := by decide

example : deepEqual (.obj [("a", .num 1)]) (.obj [("a", .num 2)]) = false := by
  decide

/-- One step into a nested JSON structure: an object property or an array
index. A path identifies the location of an in-place mutation. -/
inductive PathStep where
  | field (k : String) : PathStep
  | index (i : Nat) : PathStep
deriving DecidableEq

mutual

/-- The value obtained from a JSON value by assigning `v` at nested path
`p` (the effect of an in-place property mutation such as `value.a.b = v`).
Assigning at the empty path replaces the whole value; a field step updates
(or inserts) that key of an object; an index step updates that slot of an
array; a step that does not match the shape of the value leaves it
unchanged. -/
def setPath (j : JsonValue) (p : List PathStep) (v : JsonValue) : JsonValue :=
  match p with
  | [] => v
  | .field k :: rest =>
    match j with
    | .obj fs => .obj (setPathObj fs k rest v)
    | _ => j
  | .index i :: rest =>
    match j with
    | .arr xs => .arr (setPathArr xs i rest v)
    | _ => j

def setPathObj (fs : List (String × JsonValue)) (k : String)
    (rest : List PathStep) (v : JsonValue) : List (String × JsonValue) :=
  match fs with
  | [] => [(k, setPath .null rest v)]
  | (k', w) :: tl =>
    if k' = k then (k, setPath w rest v) :: tl
    else (k', w) :: setPathObj tl k rest v

def setPathArr (xs : List JsonValue) (i : Nat) (rest : List PathStep)
    (v : JsonValue) : List JsonValue :=
  match xs, i with
  | [], _ => []
  | x :: tl, 0 => setPath x rest v :: tl
  | x :: tl, n + 1 => x :: setPathArr tl n rest v

end

/-- In JavaScript terms, `value !== null && typeof value === 'object'`: the
condition under which `syncedValue` wraps a value with the `onChange`
mutation interceptor (`src/network/sync.ts`, value initialiser and
`set value`). -/
def isObjectLike : JsonValue → Bool
  | .arr _ => true
  | .obj _ => true
  | _ => false

/-- An outbound sync packet: the arguments handed to
`updateSyncedValue` / `broadcastSyncedValue` by the `sync` closure of
`src/network/sync.ts`. -/
structure SyncMsg where
  entityID : String
  key : String
  value : JsonValue

/-- The state of one `SyncedValue` cell (`src/network/sync.ts`,
`syncedValue`): the captured `entityID`/`key`, the current `value`, and the
`destroyed` flag. -/
structure SyncedCell where
  entityID : String
  key : String
  value : JsonValue
  destroyed : Bool

/-- The `sync` closure of `syncedValue`: throws when the cell is destroyed,
otherwise emits the given payload to the network (one outbound packet per
invocation). -/
def syncSend (c : SyncedCell) (v : JsonValue) : Except String (List SyncMsg) :=
  if c.destroyed then .error "attempt to sync a destroyed synced value"
  else .ok [⟨c.entityID, c.key, v⟩]

/-- The `get value` accessor of a `SyncedValue`. -/
def getValue (c : SyncedCell) : Except String JsonValue :=
  if c.destroyed then .error "attempt to get a destroyed synced value"
  else .ok c.value

/-- The `set value` accessor of a `SyncedValue`: throws when destroyed,
deep-change-detects against the current value, stores the new value
(wrapping object-typed values with the mutation interceptor), and calls the
sync closure exactly when the value changed. Returns the new cell state and
the outbound packets. -/
def setValue (c : SyncedCell) (v : JsonValue) :
    Except String (SyncedCell × List SyncMsg) :=
  if c.destroyed then .error "attempt to set a destroyed synced value"
  else
    let changed := !deepEqual c.value v
    let c' : SyncedCell := { c with value := v }
    .ok (c', if changed then [⟨c.entityID, c.key, v⟩] else [])

/-- The public `sync()` method: force-resends the current value through the
sync closure. -/
def cellSync (c : SyncedCell) : Except String (List SyncMsg) :=
  syncSend c c.value

/-- The `[setter]` entry: applies a server-originated update directly,
bypassing change detection, outbound sync and the destroyed check. -/
def cellSetter (c : SyncedCell) (v : JsonValue) : SyncedCell :=
  { c with value := v }

/-- The `destroy()` method: marks the cell destroyed (idempotent) and
unsubscribes the mutation interceptor. -/
def cellDestroy (c : SyncedCell) : SyncedCell :=
  { c with destroyed := true }

/-- Modelled from the spec: the `onChange` wrapper imported from
`~/utils/object.js` is not among the provided sources. Per the spec, an
object-typed stored value is wrapped so that "any property mutation
anywhere in its structure triggers the same outbound-sync path as a
top-level `set`", and the subscriber `onChanged` calls `sync(this)` with
the whole proxied value. `mutateNested` performs one in-place mutation
(assign `v` at path `p`) on a cell: when the stored value is object-typed
the mutation lands and the subscriber fires once with the full new value;
primitive values are not wrapped, so no interception occurs. -/
def mutateNested (c : SyncedCell) (p : List PathStep) (v : JsonValue) :
    Except String (SyncedCell × List SyncMsg) :=
  if isObjectLike c.value then
    let c' : SyncedCell := { c with value := setPath c.value p v }
    (syncSend c' c'.value).map fun msgs => (c', msgs)
  else .ok (c, [])

/-- The operations of the cell's public surface, for stating that no
operation leaves the Destroyed state. -/
inductive CellOp where
  | getOp : CellOp
  | setOp (v : JsonValue) : CellOp
  | syncOp : CellOp
  | setterOp (v : JsonValue) : CellOp
  | destroyOp : CellOp
  | mutateOp (p : List PathStep) (v : JsonValue) : CellOp

/-- The cell state after an operation; an operation that throws leaves the
state unchanged. -/
def applyCellOp (op : CellOp) (c : SyncedCell) : SyncedCell :=
  match op with
  | .getOp => c
  | .setOp v =>
    match setValue c v with
    | .ok (c', _) => c'
    | .error _ => c
  | .syncOp => c
  | .setterOp v => cellSetter c v
  | .destroyOp => cellDestroy c
  | .mutateOp p v =>
    match mutateNested c p v with
    | .ok (c', _) => c'
    | .error _ => c

example :
    setValue ⟨"e", "k", .num 1, false⟩ (.num 2) =
      .ok (⟨"e", "k", .num 2, false⟩, [⟨"e", "k", .num 2⟩]) := rfl

example :
    setValue ⟨"e", "k", .obj [("a", .num 1), ("b", .num 2)], false⟩
      (.obj [("b", .num 2), ("a", .num 1)]) =
      .ok (⟨"e", "k", .obj [("b", .num 2), ("a", .num 1)], false⟩, []) := rfl

/-- Claim C6: on a live `SyncedValue` cell, assigning a value that is
deep-structurally equal to the current value stores it without invoking the
outbound sync hook (a network no-op), while assigning a structurally
different value stores it and invokes the outbound sync hook exactly once,
with the assigned value as payload. -/
theorem setValue_deep_change_detection
    (c : SyncedCell) (v : JsonValue) (hl : c.destroyed = false) :
    (deepEqual c.value v = true →
      setValue c v = .ok ({ c with value := v }, [])) ∧
    (deepEqual c.value v = false →
      setValue c v = .ok ({ c with value := v }, [⟨c.entityID, c.key, v⟩])) := by
  constructor <;> intro h <;> simp [setValue, hl, h]

/-- Witness for C6 at a concrete cell: replacing an object value by a
deep-equal object with its keys in the other order sends nothing. -/
theorem setValue_deep_change_detection_witness :
    (SyncedCell.destroyed ⟨"e", "k", .obj [("a", .num 1), ("b", .num 2)], false⟩
        = false) ∧
    ((deepEqual (JsonValue.obj [("a", .num 1), ("b", .num 2)])
        (.obj [("b", .num 2), ("a", .num 1)]) = true →
      setValue ⟨"e", "k", .obj [("a", .num 1), ("b", .num 2)], false⟩
          (.obj [("b", .num 2), ("a", .num 1)]) =
        .ok (⟨"e", "k", .obj [("b", .num 2), ("a", .num 1)], false⟩, [])) ∧
    (deepEqual (JsonValue.obj [("a", .num 1), ("b", .num 2)])
        (.obj [("b", .num 2), ("a", .num 1)]) = false →
      setValue ⟨"e", "k", .obj [("a", .num 1), ("b", .num 2)], false⟩
          (.obj [("b", .num 2), ("a", .num 1)]) =
        .ok (⟨"e", "k", .obj [("b", .num 2), ("a", .num 1)], false⟩,
          [⟨"e", "k", .obj [("b", .num 2), ("a", .num 1)]⟩]))) :=
  ⟨rfl, setValue_deep_change_detection
    ⟨"e", "k", .obj [("a", .num 1), ("b", .num 2)], false⟩
    (.obj [("b", .num 2), ("a", .num 1)]) rfl⟩

/-- Claim C5: on a destroyed `SyncedValue` cell, `get value`, `set value`
and `sync()` all fail with a destroyed-synced-value error, and the
Destroyed state is terminal: no operation of the cell's surface yields a
state with the `destroyed` flag cleared. -/
theorem destroyed_cell_fails_and_terminal
    (c : SyncedCell) (hd : c.destroyed = true) :
    getValue c = .error "attempt to get a destroyed synced value" ∧
    (∀ v, setValue c v = .error "attempt to set a destroyed synced value") ∧
    cellSync c = .error "attempt to sync a destroyed synced value" ∧
    (∀ op, (applyCellOp op c).destroyed = true) := by
  refine ⟨by simp [getValue, hd], fun v => by simp [setValue, hd],
    by simp [cellSync, syncSend, hd], fun op => ?_⟩
  cases op with
  | getOp => exact hd
  | setOp v => simp [applyCellOp, setValue, hd]
  | syncOp => exact hd
  | setterOp v => exact hd
  | destroyOp => rfl
  | mutateOp p v =>
    by_cases hI : isObjectLike c.value = true
    · simp [applyCellOp, mutateNested, hI, syncSend, hd, Except.map]
    · simp [applyCellOp, mutateNested, hI, hd]

/-- Witness for C5 at a concrete destroyed cell. -/
theorem destroyed_cell_fails_and_terminal_witness :
    (SyncedCell.destroyed ⟨"e", "k", .num 1, true⟩ = true) ∧
    (getValue ⟨"e", "k", .num 1, true⟩ =
      .error "attempt to get a destroyed synced value" ∧
    (∀ v, setValue ⟨"e", "k", .num 1, true⟩ v =
      .error "attempt to set a destroyed synced value") ∧
    cellSync ⟨"e", "k", .num 1, true⟩ =
      .error "attempt to sync a destroyed synced value" ∧
    (∀ op, (applyCellOp op ⟨"e", "k", .num 1, true⟩).destroyed = true)) :=
  ⟨rfl, destroyed_cell_fails_and_terminal ⟨"e", "k", .num 1, true⟩ rfl⟩

/-- Claim C4: on a live `SyncedValue` cell holding an object-typed value,
an in-place mutation at any nested path invokes the outbound sync hook
exactly once, and the payload is the full current (post-mutation) value of
the cell, not a diff. -/
theorem mutateNested_syncs_full_value_once
    (c : SyncedCell) (p : List PathStep) (v : JsonValue)
    (hl : c.destroyed = false) (ho : isObjectLike c.value = true) :
    mutateNested c p v =
      .ok ({ c with value := setPath c.value p v },
        [⟨c.entityID, c.key, setPath c.value p v⟩]) := by
  simp [mutateNested, syncSend, ho, hl, Except.map]

/-- Witness for C4: mutating the nested property `a.b` of a live cell
sends one packet carrying the whole updated object. -/
theorem mutateNested_syncs_full_value_once_witness :
    (SyncedCell.destroyed
        ⟨"e", "k", .obj [("a", .obj [("b", .num 1)]), ("c", .num 9)], false⟩
      = false) ∧
    (isObjectLike (JsonValue.obj [("a", .obj [("b", .num 1)]), ("c", .num 9)])
      = true) ∧
    mutateNested
        ⟨"e", "k", .obj [("a", .obj [("b", .num 1)]), ("c", .num 9)], false⟩
        [.field "a", .field "b"] (.num 2) =
      .ok (⟨"e", "k", .obj [("a", .obj [("b", .num 2)]), ("c", .num 9)], false⟩,
        [⟨"e", "k", .obj [("a", .obj [("b", .num 2)]), ("c", .num 9)]⟩]) :=
  ⟨rfl, rfl, by
    simpa [setPath, setPathObj] using mutateNested_syncs_full_value_once
      ⟨"e", "k", .obj [("a", .obj [("b", .num 1)]), ("c", .num 9)], false⟩
      [.field "a", .field "b"] (.num 2) rfl rfl⟩

/-- An entity as seen by the game-loop scheduler of `createGame`
(`src/network/client.ts`, `onTick`): an identifier plus which of the
optional callbacks `onPhysicsStep` / `onRenderFrame` it implements (the
code checks `typeof entity.onPhysicsStep === 'function'`). -/
structure GEntity where
  id : Nat
  hasPhysicsStep : Bool
  hasRenderFrame : Bool
deriving DecidableEq

/-- Observable callback invocations made by one `onTick` frame callback, in
order: `Matter.Engine.update`, tick listeners, entity `onPhysicsStep`
callbacks (once per accumulator iteration), and entity `onRenderFrame`
callbacks. Deltas and times are in the units the code passes (`update`
takes milliseconds; the entity time states are seconds, divided by
1000). -/
inductive TickEvent where
  | engineUpdate (delta : ℚ) : TickEvent
  | tickListener (l : Nat) (delta : ℚ) : TickEvent
  | physicsStep (id : Nat) (delta : ℚ) (t : ℚ) : TickEvent
  | renderFrame (id : Nat) (delta : ℚ) (t : ℚ) : TickEvent
deriving DecidableEq

/-- The scheduler state captured by the closures of `createGame`: `time`
(last frame timestamp) and `physicsTickAcc` (the accumulator), both in
milliseconds. -/
structure SchedState where
  time : ℚ
  physicsTickAcc : ℚ
deriving DecidableEq

/-- `physicsTickDelta = 1_000 / physicsTickrate` (`src/network/client.ts`,
line 290). -/
def physicsTickDelta (physicsTickrate : ℚ) : ℚ :=
  1000 / physicsTickrate

theorem physicsTickDelta_pos (r : ℚ) (h : 0 < r) : 0 < physicsTickDelta r :=
  div_pos (by norm_num) h

/-- The body of one iteration of the accumulator `while` loop of `onTick`:
`Matter.Engine.update(engine, physicsTickDelta)`, then every registered
tick listener with the fixed delta, then every entity that implements
`onPhysicsStep` with `{delta: physicsTickDelta/1000, time: time/1000}`
(at this point `time` equals `now`). -/
def stepEvents (d : ℚ) (es : List GEntity) (ls : List Nat) (now : ℚ) :
    List TickEvent :=
  TickEvent.engineUpdate d ::
    ((ls.map fun l => TickEvent.tickListener l d) ++
      ((es.filter fun e => e.hasPhysicsStep).map fun e =>
        TickEvent.physicsStep e.id (d / 1000) (now / 1000)))

/-- The accumulator loop of `onTick`:
`while (physicsTickAcc >= physicsTickDelta) { physicsTickAcc -= physicsTickDelta; ... }`.
Returns the final accumulator and the emitted events. The `0 < d` conjunct
guards termination; it holds in every configuration the code can build,
since `physicsTickDelta` of a (positive) tickrate is positive. -/
def physicsLoop (d : ℚ) (es : List GEntity) (ls : List Nat)
    (now : ℚ) (acc : ℚ) : ℚ × List TickEvent :=
  if h : 0 < d ∧ d ≤ acc then
    let r := physicsLoop d es ls now (acc - d)
    (r.1, stepEvents d es ls now ++ r.2)
  else (acc, [])
termination_by ⌈acc / d⌉.toNat
decreasing_by
  have h1 : (acc - d) / d = acc / d - 1 := by
    rw [sub_div, div_self h.1.ne']
  have h2 : (1 : ℚ) ≤ acc / d := (one_le_div h.1).mpr h.2
  have h3 : (0 : ℤ) < ⌈acc / d⌉ := Int.ceil_pos.mpr (lt_of_lt_of_le one_pos h2)
  rw [h1, Int.ceil_sub_one]
  omega

/-- One frame callback (`onTick` of `createGame`): computes the elapsed
wall-clock `delta`, advances `time`, feeds the accumulator, runs the
physics catch-up loop, and then (when a render context is active) invokes
every entity's `onRenderFrame` with the variable-rate
`{delta: delta/1000, time: time/1000}`. Returns the new scheduler state and
the events of this frame in order. -/
def onTick (tickrate : ℚ) (es : List GEntity)
    (ls : List Nat) (renderContext : Bool) (st : SchedState) (now : ℚ) :
    SchedState × List TickEvent :=
  let delta := now - st.time
  let acc := st.physicsTickAcc + delta
  let r := physicsLoop (physicsTickDelta tickrate) es ls now acc
  let renderEvs := if renderContext then
      (es.filter fun e => e.hasRenderFrame).map fun e =>
        TickEvent.renderFrame e.id (delta / 1000) (now / 1000)
    else []
  (⟨now, r.1⟩, r.2 ++ renderEvs)

/-- Does this event record an `onPhysicsStep` invocation on entity `u`? -/
def isPhysicsStepFor (u : Nat) : TickEvent → Bool
  | .physicsStep u' _ _ => u' == u
  | _ => false

/-- Does this event record an `onRenderFrame` invocation on entity `u`? -/
def isRenderFrameFor (u : Nat) : TickEvent → Bool
  | .renderFrame u' _ _ => u' == u
  | _ => false

/-- Is this event any `onRenderFrame` invocation? -/
def isRenderEv : TickEvent → Bool
  | .renderFrame _ _ _ => true
  | _ => false

/-- Is this event any `onPhysicsStep` invocation? -/
def isPhysicsEv : TickEvent → Bool
  | .physicsStep _ _ _ => true
  | _ => false

/-- Every `onPhysicsStep` invocation in the trace happens before every
`onRenderFrame` invocation: after any render event no physics event
follows. -/
def physAllBeforeRender : List TickEvent → Bool
  | [] => true
  | ev :: rest =>
    (!isRenderEv ev || rest.all fun x => !isPhysicsEv x) &&
      physAllBeforeRender rest

/-- The number of iterations the accumulator loop performs: same recursion
and guard as `physicsLoop`, with the events stripped. -/
def loopCount (d acc : ℚ) : Nat :=
  if h : 0 < d ∧ d ≤ acc then loopCount d (acc - d) + 1 else 0
termination_by ⌈acc / d⌉.toNat
decreasing_by
  have h1 : (acc - d) / d = acc / d - 1 := by
    rw [sub_div, div_self h.1.ne']
  have h2 : (1 : ℚ) ≤ acc / d := (one_le_div h.1).mpr h.2
  have h3 : (0 : ℤ) < ⌈acc / d⌉ := Int.ceil_pos.mpr (lt_of_lt_of_le one_pos h2)
  rw [h1, Int.ceil_sub_one]
  omega

/-- Each iteration of the accumulator loop emits the same block of events
(the block depends on the fixed delta and `now`, not on the accumulator),
so the loop's trace is that block repeated once per iteration. -/
theorem physicsLoop_events (d : ℚ) (es : List GEntity) (ls : List Nat)
    (now : ℚ) (acc : ℚ) :
    (physicsLoop d es ls now acc).2 =
      (List.replicate (loopCount d acc) (stepEvents d es ls now)).flatten := by
  induction acc using loopCount.induct d with
  | case1 x hx ih =>
    rw [physicsLoop, loopCount]
    simp [hx, ih, List.replicate_succ]
  | case2 x hx =>
    rw [physicsLoop, loopCount]
    simp [hx]

theorem countP_flatten_replicate {α : Type} (p : α → Bool) (n : Nat)
    (l : List α) :
    ((List.replicate n l).flatten).countP p = n * l.countP p := by
  induction n with
  | zero => simp
  | succ k ih => simp [List.replicate_succ, ih, Nat.succ_mul, Nat.add_comm]

theorem countP_eq_one_of {α : Type} (q : α → Bool) (e : α) (hq : q e = true) :
    ∀ l : List α, l.Nodup → e ∈ l → (∀ x ∈ l, q x = true → x = e) →
      l.countP q = 1 := by
  intro l
  induction l with
  | nil => intro _ he _; cases he
  | cons a tl ih =>
    intro hnd he huniq
    rw [List.nodup_cons] at hnd
    rw [List.countP_cons]
    rcases List.mem_cons.mp he with rfl | hmem
    · have h0 : tl.countP q = 0 := by
        rw [List.countP_eq_zero]
        intro x hx hqx
        exact absurd (by rw [huniq x (List.mem_cons_of_mem _ hx) hqx] at hx; exact hx) hnd.1
      simp [h0, hq]
    · have hqa : q a = false := by
        rcases Bool.eq_false_or_eq_true (q a) with h | h
        · exact absurd (by rw [huniq a (List.mem_cons_self a tl) h]; exact hmem) hnd.1
        · exact h
      simp only [hqa, Bool.false_eq_true, if_false, Nat.add_zero]
      exact ih hnd.2 hmem fun x hx hqx => huniq x (List.mem_cons_of_mem _ hx) hqx

theorem stepEvents_countP_physFor (d : ℚ) (es : List GEntity) (ls : List Nat)
    (now : ℚ) (e : GEntity) (hn : (es.map GEntity.id).Nodup) (he : e ∈ es)
    (hp : e.hasPhysicsStep = true) :
    (stepEvents d es ls now).countP (isPhysicsStepFor e.id) = 1 := by
  unfold stepEvents
  rw [List.countP_cons, List.countP_append]
  have hA : (ls.map fun l => TickEvent.tickListener l d).countP
      (isPhysicsStepFor e.id) = 0 := by
    rw [List.countP_eq_zero]
    intro ev hev
    obtain ⟨l, _, rfl⟩ := List.mem_map.mp hev
    simp [isPhysicsStepFor]
  have hB : ((es.filter fun x => x.hasPhysicsStep).map fun x =>
      TickEvent.physicsStep x.id (d / 1000) (now / 1000)).countP
      (isPhysicsStepFor e.id) = 1 := by
    rw [List.countP_map, List.countP_filter]
    refine countP_eq_one_of _ e ?_ es (List.Nodup.of_map _ hn) he ?_
    · simp [isPhysicsStepFor, Function.comp, hp]
    · intro x hx hqx
      have hid : x.id = e.id := by
        simp [isPhysicsStepFor, Function.comp] at hqx
        exact hqx.1
      exact List.inj_on_of_nodup_map hn hx he hid
  simp [hA, hB, isPhysicsStepFor]

theorem stepEvents_no_render (d : ℚ) (es : List GEntity) (ls : List Nat)
    (now : ℚ) : ∀ ev ∈ stepEvents d es ls now, isRenderEv ev = false := by
  intro ev hev
  unfold stepEvents at hev
  rcases List.mem_cons.mp hev with rfl | hev'
  · rfl
  rcases List.mem_append.mp hev' with h | h
  · obtain ⟨l, _, rfl⟩ := List.mem_map.mp h
    rfl
  · obtain ⟨x, _, rfl⟩ := List.mem_map.mp h
    rfl

theorem stepEvents_countP_renderFor (d : ℚ) (es : List GEntity)
    (ls : List Nat) (now : ℚ) (u : Nat) :
    (stepEvents d es ls now).countP (isRenderFrameFor u) = 0 := by
  rw [List.countP_eq_zero]
  intro ev hev
  have h := stepEvents_no_render d es ls now ev hev
  cases ev <;> simp_all [isRenderEv, isRenderFrameFor]

theorem physAllBeforeRender_append (A B : List TickEvent)
    (hA : ∀ ev ∈ A, isRenderEv ev = false)
    (hB : ∀ ev ∈ B, isPhysicsEv ev = false) :
    physAllBeforeRender (A ++ B) = true := by
  induction A with
  | nil =>
    simp only [List.nil_append]
    induction B with
    | nil => rfl
    | cons b tb ihb =>
      have hall : tb.all (fun x => !isPhysicsEv x) = true := by
        rw [List.all_eq_true]
        intro x hx
        simp [hB x (List.mem_cons_of_mem _ hx)]
      simp only [physAllBeforeRender, hall, Bool.or_true, Bool.true_and]
      exact ihb fun ev hev => hB ev (List.mem_cons_of_mem _ hev)
  | cons a ta iha =>
    have ha : isRenderEv a = false := hA a (List.mem_cons_self a ta)
    simp only [List.cons_append, physAllBeforeRender, ha, Bool.not_false,
      Bool.true_or, Bool.true_and]
    exact iha fun ev hev => hA ev (List.mem_cons_of_mem _ hev)

theorem renderEvs_countP_renderFor (es : List GEntity) (dl tm : ℚ)
    (e : GEntity) (hn : (es.map GEntity.id).Nodup) (he : e ∈ es)
    (hr : e.hasRenderFrame = true) :
    ((es.filter fun x => x.hasRenderFrame).map fun x =>
      TickEvent.renderFrame x.id dl tm).countP (isRenderFrameFor e.id) = 1 := by
  rw [List.countP_map, List.countP_filter]
  refine countP_eq_one_of _ e ?_ es (List.Nodup.of_map _ hn) he ?_
  · simp [isRenderFrameFor, Function.comp, hr]
  · intro x hx hqx
    have hid : x.id = e.id := by
      simp [isRenderFrameFor, Function.comp] at hqx
      exact hqx.1
    exact List.inj_on_of_nodup_map hn hx he hid

theorem renderEvs_countP_physFor (es : List GEntity) (dl tm : ℚ) (u : Nat) :
    ((es.filter fun x => x.hasRenderFrame).map fun x =>
      TickEvent.renderFrame x.id dl tm).countP (isPhysicsStepFor u) = 0 := by
  rw [List.countP_eq_zero]
  intro ev hev
  obtain ⟨x, _, rfl⟩ := List.mem_map.mp hev
  simp [isPhysicsStepFor]

/-- Claim C2: for a scheduler created with `physicsTickrate = 60` whose
accumulator is empty, a single frame callback carrying 250 ms of elapsed
wall-clock time invokes the `onPhysicsStep` callback of every live entity
that implements it exactly `floor(250/(1000/60)) = 15` times, all of them
before the single `onRenderFrame` callback this frame delivers to each
entity that implements that (entity ids assumed distinct, as JavaScript
object identities are). -/
theorem onTick_60hz_250ms (t0 : ℚ) (es : List GEntity) (ls : List Nat)
    (hn : (es.map GEntity.id).Nodup) (e : GEntity) (he : e ∈ es)
    (hp : e.hasPhysicsStep = true) :
    ((onTick 60 es ls true ⟨t0, 0⟩ (t0 + 250)).2.countP
      (isPhysicsStepFor e.id) = 15) ∧
    physAllBeforeRender ((onTick 60 es ls true ⟨t0, 0⟩ (t0 + 250)).2) = true ∧
    (e.hasRenderFrame = true →
      (onTick 60 es ls true ⟨t0, 0⟩ (t0 + 250)).2.countP
        (isRenderFrameFor e.id) = 1) := by
  have hcount : loopCount (physicsTickDelta 60) 250 = 15 := by
    unfold physicsTickDelta
    norm_num
    repeat (rw [loopCount]; norm_num)
  have hevs : (onTick 60 es ls true ⟨t0, 0⟩ (t0 + 250)).2 =
      (List.replicate 15
        (stepEvents (physicsTickDelta 60) es ls (t0 + 250))).flatten ++
      ((es.filter fun x => x.hasRenderFrame).map fun x =>
        TickEvent.renderFrame x.id ((t0 + 250 - t0) / 1000)
          ((t0 + 250) / 1000)) := by
    simp only [onTick, if_true]
    rw [show (0 : ℚ) + (t0 + 250 - t0) = 250 by ring]
    rw [physicsLoop_events, hcount]
  rw [hevs]
  refine ⟨?_, ?_, fun hr => ?_⟩
  · rw [List.countP_append, countP_flatten_replicate,
      stepEvents_countP_physFor _ es ls _ e hn he hp,
      renderEvs_countP_physFor]
  · refine physAllBeforeRender_append _ _ ?_ ?_
    · intro ev hev
      obtain ⟨l, hl, hev'⟩ := List.mem_flatten.mp hev
      rw [List.eq_of_mem_replicate hl] at hev'
      exact stepEvents_no_render _ es ls _ ev hev'
    · intro ev hev
      obtain ⟨x, _, rfl⟩ := List.mem_map.mp hev
      rfl
  · rw [List.countP_append, countP_flatten_replicate,
      stepEvents_countP_renderFor,
      renderEvs_countP_renderFor es _ _ e hn he hr]

/-- Witness for C2 at a concrete frame: one entity with both callbacks, no
tick listeners, frame from time 0 to 250 ms. -/
theorem onTick_60hz_250ms_witness :
    (([⟨0, true, true⟩] : List GEntity).map GEntity.id).Nodup ∧
    (⟨0, true, true⟩ : GEntity) ∈ ([⟨0, true, true⟩] : List GEntity) ∧
    GEntity.hasPhysicsStep ⟨0, true, true⟩ = true ∧
    (((onTick 60 [⟨0, true, true⟩] [] true ⟨0, 0⟩ (0 + 250)).2.countP
      (isPhysicsStepFor (GEntity.id ⟨0, true, true⟩)) = 15) ∧
    physAllBeforeRender
      ((onTick 60 [⟨0, true, true⟩] [] true ⟨0, 0⟩ (0 + 250)).2) = true ∧
    (GEntity.hasRenderFrame ⟨0, true, true⟩ = true →
      (onTick 60 [⟨0, true, true⟩] [] true ⟨0, 0⟩ (0 + 250)).2.countP
        (isRenderFrameFor (GEntity.id ⟨0, true, true⟩)) = 1)) :=
  ⟨by simp, by simp, rfl,
    onTick_60hz_250ms 0 [⟨0, true, true⟩] [] (by simp) ⟨0, true, true⟩
      (by simp) rfl⟩

/-- The state of the physics adapter of `createPhysics` (`src/physics.ts`):
`bodySets` models the `entities` Map from entity UID to its `Set` of
bodies (a missing key behaving as the empty set, matching
`entities.get(uid) ?? new Set()`), and `world` models the set of bodies
currently added to the Matter world composite (the external collaborator's
composite is treated as a set of bodies, per the spec's black-box view).
Bodies are identified by numbers. -/
structure PhysicsState where
  bodySets : String → Finset ℕ
  world : Finset ℕ

/-- The empty adapter state produced by `createPhysics`. -/
def physInit : PhysicsState :=
  ⟨fun _ => ∅, ∅⟩

/-- A call to the adapter's registration surface, identified by the
entity's UID (both methods first check `isSpawnableEntity` and then only
use `entity.uid`). -/
inductive PhysOp where
  | register (uid : String) (bodies : List ℕ) : PhysOp
  | unregister (uid : String) (bodies : List ℕ) : PhysOp

/-- `register` adds every given body to the entity's set and to the world
composite; `unregister` deletes every given body from the entity's set and
removes it from the world composite. Nothing touches any other entity's
set. -/
def applyPhysOp (op : PhysOp) (st : PhysicsState) : PhysicsState :=
  match op with
  | .register uid bodies =>
    ⟨fun u => if u = uid then st.bodySets uid ∪ bodies.toFinset
      else st.bodySets u,
      st.world ∪ bodies.toFinset⟩
  | .unregister uid bodies =>
    ⟨fun u => if u = uid then st.bodySets uid \ bodies.toFinset
      else st.bodySets u,
      st.world \ bodies.toFinset⟩

/-- A sequence of registration calls applied in order. -/
def applyPhysOps (st : PhysicsState) (ops : List PhysOp) : PhysicsState :=
  ops.foldl (fun s op => applyPhysOp op s) st

/-- A body belongs to at most one entity's body set. -/
def atMostOneOwner (st : PhysicsState) : Prop :=
  ∀ b u v, b ∈ st.bodySets u → b ∈ st.bodySets v → u = v

/-- Counterexample to claim C3 as stated: the registration table does not
enforce single ownership. Registering body `0` under entity `"a"` and then
under entity `"b"` leaves it in both sets. -/
theorem register_shared_body_two_owners :
    ¬ atMostOneOwner (applyPhysOps physInit
      [PhysOp.register "a" [0], PhysOp.register "b" [0]]) := by
  intro h
  have h1 : (0 : ℕ) ∈ (applyPhysOps physInit
      [PhysOp.register "a" [0], PhysOp.register "b" [0]]).bodySets "a" := by
    simp [applyPhysOps, applyPhysOp, physInit]
  have h2 : (0 : ℕ) ∈ (applyPhysOps physInit
      [PhysOp.register "a" [0], PhysOp.register "b" [0]]).bodySets "b" := by
    simp [applyPhysOps, applyPhysOp, physInit]
  simpa using h 0 "a" "b" h1 h2

/-- Claim C3 amended: `unregister(entity, body)` removes the body both
from that entity's set and from the physics world composite, and
unregistering preserves single ownership; but the table itself does not
enforce the at-most-one-entity invariant — it is preserved by `register`
only when the registered bodies do not currently sit in another entity's
set (which the counterexample violates). -/
theorem physics_registration_amended
    (st : PhysicsState) (uid : String) (bodies : List ℕ)
    (hmo : atMostOneOwner st)
    (hfresh : ∀ b ∈ bodies, ∀ u, u ≠ uid → b ∉ st.bodySets u) :
    (∀ b ∈ bodies,
      b ∉ (applyPhysOp (.unregister uid bodies) st).bodySets uid ∧
      b ∉ (applyPhysOp (.unregister uid bodies) st).world) ∧
    atMostOneOwner (applyPhysOp (.unregister uid bodies) st) ∧
    atMostOneOwner (applyPhysOp (.register uid bodies) st) := by
  refine ⟨fun b hb => ⟨?_, ?_⟩, ?_, ?_⟩
  · simp [applyPhysOp, hb]
  · simp [applyPhysOp, hb]
  · intro b u v hu hv
    apply hmo b u v
    · by_cases h : u = uid
      · subst h; simp [applyPhysOp] at hu; exact hu.1
      · simpa [applyPhysOp, h] using hu
    · by_cases h : v = uid
      · subst h; simp [applyPhysOp] at hv; exact hv.1
      · simpa [applyPhysOp, h] using hv
  · intro b u v hu hv
    by_cases h1 : u = uid <;> by_cases h2 : v = uid
    · rw [h1, h2]
    · subst h1
      simp [applyPhysOp, h2] at hu hv
      rcases hu with hu | hu
      · exact hmo b u v hu hv
      · exact absurd hv (hfresh b hu v h2)
    · subst h2
      simp [applyPhysOp, h1] at hu hv
      rcases hv with hv | hv
      · exact hmo b u v hu hv
      · exact absurd hu (hfresh b hv u h1)
    · simp [applyPhysOp, h1, h2] at hu hv
      exact hmo b u v hu hv

/-- Witness for the amended C3 at a concrete state: the empty table, one
entity and one body. -/
theorem physics_registration_amended_witness :
    atMostOneOwner physInit ∧
    (∀ b ∈ ([0] : List ℕ), ∀ u, u ≠ "a" → b ∉ physInit.bodySets u) ∧
    ((∀ b ∈ ([0] : List ℕ),
      b ∉ (applyPhysOp (.unregister "a" [0]) physInit).bodySets "a" ∧
      b ∉ (applyPhysOp (.unregister "a" [0]) physInit).world) ∧
    atMostOneOwner (applyPhysOp (.unregister "a" [0]) physInit) ∧
    atMostOneOwner (applyPhysOp (.register "a" [0]) physInit)) :=
  ⟨by simp [atMostOneOwner, physInit], by simp [physInit],
    physics_registration_amended physInit "a" [0]
      (by simp [atMostOneOwner, physInit]) (by simp [physInit])⟩

/-- The parsed transform of a spawnable definition: a position and a
rotation, all numeric. -/
structure Transform where
  x : ℚ
  y : ℚ
  rotation : ℚ
deriving DecidableEq

/-- A parsed `SpawnableDefinition` as consumed by `spawn`
(`src/network/client.ts`): entity type name, optional explicit UID,
transform, optional tag list, optional z-index and the argument array that
is spread into the spawnable function. -/
structure SpawnableDefinition where
  entity : String
  uid : Option String
  transform : Transform
  tags : Option (List String)
  zIndex : Option ℚ
  args : List JsonValue

/-- Parses the `transform` field: an object with a numeric-`x`/`y`
`position` object and a numeric `rotation`. -/
def parseTransform (j : JsonValue) : Except String Transform :=
  match j with
  | .obj fs =>
    match fs.lookup "position" with
    | some (.obj ps) =>
      match ps.lookup "x", ps.lookup "y" with
      | some (.num x), some (.num y) =>
        match fs.lookup "rotation" with
        | some (.num r) => .ok ⟨x, y, r⟩
        | _ => .error "transform.rotation: expected a number"
      | _, _ => .error "transform.position: expected numbers x and y"
    | _ => .error "transform.position: expected an object"
  | _ => .error "transform: expected an object"

/-- Parses a `tags` array: every element must be a string. -/
def parseTagList (xs : List JsonValue) : Except String (List String) :=
  match xs with
  | [] => .ok []
  | .str s :: tl => (parseTagList tl).map fun rest => s :: rest
  | _ :: _ => .error "tags: expected an array of strings"

/-- Modelled from the spec: `SpawnableDefinitionSchema` lives in
`~/spawnable/definition.js`, which is not among the provided sources. Per
the spec the general schema requires the entity type name (a string), a
transform with numeric position/rotation, an optional UID, an optional
string-array tag set and the argument payload (an array, since `spawn`
spreads `definition.args`); a z-index is numeric when present. Like the
zod schema's `.parse`, failure surfaces a field-path-qualified error. -/
def parseDefinition (j : JsonValue) : Except String SpawnableDefinition :=
  match j with
  | .obj fs => do
    let name ← match fs.lookup "entity" with
      | some (.str s) => Except.ok s
      | _ => Except.error "entity: expected a string"
    let uid ← match fs.lookup "uid" with
      | some (.str s) => Except.ok (some s)
      | none => Except.ok none
      | some _ => Except.error "uid: expected a string"
    let tf ← match fs.lookup "transform" with
      | some t => parseTransform t
      | none => Except.error "transform: required"
    let tags ← match fs.lookup "tags" with
      | some (.arr xs) => (parseTagList xs).map some
      | none => Except.ok none
      | some _ => Except.error "tags: expected an array of strings"
    let z ← match fs.lookup "zIndex" with
      | some (.num q) => Except.ok (some q)
      | none => Except.ok none
      | some _ => Except.error "zIndex: expected a number"
    let args ← match fs.lookup "args" with
      | some (.arr xs) => Except.ok xs
      | _ => Except.error "args: expected an array"
    Except.ok ⟨name, uid, tf, tags, z, args⟩
  | _ => .error "definition: expected an object"

/-- A live spawnable entity as far as the game facade observes it: the UID,
tag list, preview flag and z-index handed to the spawnable function through
its `SpawnableContext`, plus the optional render priority entities may
declare (`a.priority ?? 0` in `sortEntities`). -/
structure SpawnedEntity where
  uid : String
  tags : List String
  preview : Bool
  zIndex : ℚ
  priority : Option ℚ
deriving DecidableEq

/-- The state closed over by `createGame` that the spawn/destroy/query
operations touch: the internal `entities` array, the `spawnables` Map
(modelled as an insertion-ordered association list with unique keys, as a
JavaScript Map iterates), the registered spawnable function names, and a
counter standing in for `cuid2.createId()`. -/
structure GameState where
  entities : List SpawnedEntity
  spawnables : List (String × SpawnedEntity)
  spawnableFunctions : List String
  nextUid : Nat
deriving DecidableEq

/-- `Map.set`: replace the value under an existing key in place, otherwise
append a new entry. -/
def setKey {β : Type} : List (String × β) → String → β → List (String × β)
  | [], k, v => [(k, v)]
  | (k', v') :: tl, k, v =>
    if k' = k then (k, v) :: tl else (k', v') :: setKey tl k v

/-- `Map.delete`: drop the entry with the given key (a Map holds at most
one entry per key). -/
def delKey {β : Type} (m : List (String × β)) (k : String) :
    List (String × β) :=
  m.filter fun p => p.1 != k

/-- `lookup(uid)` of the game facade: `spawnables.get(uid)`. -/
def lookup (st : GameState) (uid : String) : Option SpawnedEntity :=
  st.spawnables.lookup uid

/-- The `entities` getter: `[...entities, ...spawnables.values()]`. -/
def gameEntities (st : GameState) : List SpawnedEntity :=
  st.entities ++ st.spawnables.map Prod.snd

/-- `sortEntities`: sort the internal array by ascending
`priority ?? 0` (stable, as `Array.prototype.sort` is). -/
def sortEntities (l : List SpawnedEntity) : List SpawnedEntity :=
  l.mergeSort fun a b => decide (a.priority.getD 0 ≤ b.priority.getD 0)

/-- `instantiate(entity)`: run init (opaque here), push onto the internal
array and re-sort. -/
def instantiate (st : GameState) (e : SpawnedEntity) : GameState :=
  { st with entities := sortEntities (st.entities ++ [e]) }

/-- `cuid2.createId()`, modelled as a fresh name from a counter. -/
def genUid (n : Nat) : String :=
  "cuid-" ++ toString n

/-- The entity a registered spawnable function returns for a context: the
`SpawnableEntity` base class stores the context's `uid`, `tags`, `preview`
and `zIndex`. -/
def mkEntity (defn : SpawnableDefinition) (uid : String) (preview : Bool) :
    SpawnedEntity :=
  ⟨uid, defn.tags.getD [], preview, defn.zIndex.getD 0, none⟩

/-- The outcome of one `spawn` call: the state afterwards, the returned
value (`Except.error` models the thrown validation error, `.ok none` the
`undefined` return), and any `console.warn` output. -/
structure SpawnOutcome where
  state : GameState
  result : Except String (Option SpawnedEntity)
  warnings : List String

/-- `spawn(loose, preview)`: parse the loose definition (throwing on schema
failure), look up the spawnable function (warning and returning `undefined`
when unknown), otherwise build the context (generating a UID when the
definition carries none), construct the entity, `instantiate` it and insert
it into the spawnables Map under its UID. -/
def spawn (st : GameState) (loose : JsonValue) (preview : Bool) :
    SpawnOutcome :=
  match parseDefinition loose with
  | .error msg => ⟨st, .error msg, []⟩
  | .ok defn =>
    if st.spawnableFunctions.contains defn.entity then
      let p := match defn.uid with
        | some u => (u, st)
        | none => (genUid st.nextUid, { st with nextUid := st.nextUid + 1 })
      let e := mkEntity defn p.1 preview
      let st2 := instantiate p.2 e
      ⟨{ st2 with spawnables := setKey st2.spawnables p.1 e }, .ok (some e), []⟩
    else
      ⟨st, .ok none, ["unknown spawnable function: " ++ defn.entity]⟩

/-- The jobs of `spawnMany`: one `spawn(def, false)` per definition. Each
job applies its state effects even when a sibling has already failed; the
results are collected in definition order. -/
def spawnJobs (st : GameState) :
    List JsonValue → GameState × List (Except String (Option SpawnedEntity))
  | [] => (st, [])
  | d :: rest =>
    let o := spawn st d false
    let r := spawnJobs o.state rest
    (r.1, o.result :: r.2)

/-- The first rejection among the job results, if any (what `Promise.all`
rejects with: schema-validation errors reject synchronously, in definition
order). -/
def firstError (results : List (Except String (Option SpawnedEntity))) :
    Option String :=
  results.findSome? fun r =>
    match r with
    | .error e => some e
    | .ok _ => none

/-- `spawnMany(...definitions)`: run all jobs, then `Promise.all`: reject
with the first rejection if any job threw, otherwise resolve and filter out
the `undefined` results of unknown-type definitions. -/
def spawnMany (st : GameState) (defs : List JsonValue) :
    GameState × Except String (List SpawnedEntity) :=
  let r := spawnJobs st defs
  (r.1,
    match firstError r.2 with
    | some e => .error e
    | none => .ok (r.2.filterMap fun x =>
        match x with
        | .ok (some e) => some e
        | _ => none))

/-- The trace of one `destroy(entity)` call: the state afterwards and, for
each teardown callback the code invokes, the callback's name paired with
the game state in effect while it runs. The entity is deleted from the
spawnables Map first, then — if present in the internal array — removed
from it, after which `teardownRenderContext` (client mode) and `teardown`
run. -/
structure DestroyOutcome where
  state : GameState
  trace : List (String × GameState)

/-- `destroy(entity)` (`src/network/client.ts`, line 430). -/
def destroy (st : GameState) (e : SpawnedEntity) (renderContext : Bool) :
    DestroyOutcome :=
  let st1 := { st with spawnables := delKey st.spawnables e.uid }
  if st1.entities.contains e then
    let st2 := { st1 with entities := sortEntities (st1.entities.erase e) }
    ⟨st2, (if renderContext then [("teardownRenderContext", st2)] else []) ++
      [("teardown", st2)]⟩
  else ⟨st1, []⟩

/-- The second argument of `queryTags` as a dynamically typed value: a
predicate function, an array (of arbitrary values), or anything else. -/
inductive TagsArg where
  | fn (p : List String → Bool) : TagsArg
  | arr (xs : List JsonValue) : TagsArg
  | other : TagsArg

/-- The first argument of `queryTags`. -/
inductive QueryKind where
  | fnQ : QueryKind
  | allQ : QueryKind
  | anyQ : QueryKind
deriving DecidableEq

/-- `xs.every(x => typeof x === 'string')`. -/
def isStringArray (xs : List JsonValue) : Bool :=
  xs.all fun x =>
    match x with
    | .str _ => true
    | _ => false

/-- The strings of a JSON array (total on arrays that pass
`isStringArray`). -/
def asStrings (xs : List JsonValue) : List String :=
  xs.filterMap fun x =>
    match x with
    | .str s => some s
    | _ => none

/-- `queryTags(query, fnOrTags)` (`src/network/client.ts`, line 497):
`'fn'` requires a function and filters the spawnables by the predicate on
their tag lists; `'all'`/`'any'` require a string array (else a TypeError,
modelled as `Except.error`) and filter the spawnables by
every-tag-included / some-tag-included. No preview filtering occurs. -/
def queryTags (st : GameState) (q : QueryKind) (arg : TagsArg) :
    Except String (List SpawnedEntity) :=
  match q with
  | .fnQ =>
    match arg with
    | .fn p => .ok ((st.spawnables.map Prod.snd).filter fun e => p e.tags)
    | _ => .error "`fn` must be a function"
  | _ =>
    match arg with
    | .arr xs =>
      if isStringArray xs then
        .ok ((st.spawnables.map Prod.snd).filter fun e =>
          match q with
          | .allQ => (asStrings xs).all fun t => e.tags.contains t
          | .anyQ => (asStrings xs).any fun t => e.tags.contains t
          | .fnQ => false)
      else .error "`tags` must be an array of strings"
    | _ => .error "`tags` must be an array"

theorem lookup_setKey_self {β : Type} (m : List (String × β)) (k : String)
    (v : β) : (setKey m k v).lookup k = some v := by
  induction m with
  | nil => simp [setKey, List.lookup]
  | cons p tl ih =>
    obtain ⟨a, b⟩ := p
    by_cases h : a = k
    · simp [setKey, h, List.lookup]
    · simp [setKey, h, List.lookup, ih,
        beq_eq_false_iff_ne.mpr fun hh => h hh.symm]

theorem lookup_setKey_other {β : Type} (m : List (String × β)) (k w : String)
    (v : β) (hw : w ≠ k) : (setKey m k v).lookup w = m.lookup w := by
  induction m with
  | nil => simp [setKey, List.lookup, beq_eq_false_iff_ne.mpr hw]
  | cons p tl ih =>
    obtain ⟨a, b⟩ := p
    by_cases h : a = k
    · simp [setKey, h, List.lookup, beq_eq_false_iff_ne.mpr hw]
    · by_cases h2 : a = w
      · simp [setKey, h, h2, hw, List.lookup]
      · simp [setKey, h, List.lookup, ih,
          beq_eq_false_iff_ne.mpr fun hh => h2 hh.symm]

theorem lookup_delKey_self {β : Type} (m : List (String × β)) (k : String) :
    (delKey m k).lookup k = none := by
  induction m with
  | nil => simp [delKey]
  | cons p tl ih =>
    obtain ⟨a, b⟩ := p
    rw [delKey] at ih ⊢
    rw [List.filter_cons]
    by_cases h : a = k
    · subst h
      simpa using ih
    · have hb : ((a, b).1 != k) = true := bne_iff_ne.mpr h
      rw [if_pos hb, List.lookup]
      simp only [beq_eq_false_iff_ne.mpr (Ne.symm h)]
      exact ih

theorem setKey_fresh_append {β : Type} (m : List (String × β)) (k : String)
    (v : β) (hf : ∀ p ∈ m, p.1 ≠ k) : setKey m k v = m ++ [(k, v)] := by
  induction m with
  | nil => simp [setKey]
  | cons p tl ih =>
    obtain ⟨a, b⟩ := p
    have hp : a ≠ k := hf (a, b) (List.mem_cons_self _ tl)
    rw [setKey, if_neg hp, List.cons_append]
    rw [ih fun q hq => hf q (List.mem_cons_of_mem _ hq)]

/-- Claim C7: a `spawn` call whose (schema-valid) definition names an
entity type with no registered spawnable function logs a warning and
returns `undefined` without throwing, and the game state — in particular
the length of the `entities` getter's list — is unchanged. -/
theorem spawn_unknown_type_noop (st : GameState) (loose : JsonValue)
    (defn : SpawnableDefinition) (pv : Bool)
    (hp : parseDefinition loose = .ok defn)
    (hreg : st.spawnableFunctions.contains defn.entity = false) :
    spawn st loose pv =
      ⟨st, .ok none, ["unknown spawnable function: " ++ defn.entity]⟩ ∧
    (gameEntities (spawn st loose pv).state).length =
      (gameEntities st).length := by
  have h : spawn st loose pv =
      ⟨st, .ok none, ["unknown spawnable function: " ++ defn.entity]⟩ := by
    rw [spawn, hp]
    simp [hreg]
    simpa using hreg
  exact ⟨h, by rw [h]⟩

def looseGhost : JsonValue :=
  .obj [("entity", .str "ghost"),
    ("transform", .obj [("position", .obj [("x", .num 0), ("y", .num 0)]),
      ("rotation", .num 0)]),
    ("args", .arr [])]

def ghostDefn : SpawnableDefinition :=
  ⟨"ghost", none, ⟨0, 0, 0⟩, none, none, []⟩

/-- Witness for C7: a well-formed definition naming an unregistered type in
an empty game. -/
theorem spawn_unknown_type_noop_witness :
    parseDefinition looseGhost = .ok ghostDefn ∧
    ((⟨[], [], [], 0⟩ : GameState).spawnableFunctions.contains
      ghostDefn.entity = false) ∧
    (spawn ⟨[], [], [], 0⟩ looseGhost false =
      ⟨⟨[], [], [], 0⟩, .ok none,
        ["unknown spawnable function: " ++ ghostDefn.entity]⟩ ∧
    (gameEntities (spawn ⟨[], [], [], 0⟩ looseGhost false).state).length =
      (gameEntities ⟨[], [], [], 0⟩).length) :=
  ⟨rfl, rfl, spawn_unknown_type_noop ⟨[], [], [], 0⟩ looseGhost ghostDefn
    false rfl rfl⟩

/-- Claim C8: `destroy(entity)` on an entity present in the game removes
its UID from the spawnable-by-UID map before any teardown callback runs:
the `teardown` callback is invoked, and every callback in the destroy trace
observes `lookup(uid) = undefined`. -/
theorem destroy_removes_lookup_before_teardown (st : GameState)
    (e : SpawnedEntity) (rc : Bool) (he : st.entities.contains e = true) :
    (∃ stT, ("teardown", stT) ∈ (destroy st e rc).trace) ∧
    (∀ name stT, (name, stT) ∈ (destroy st e rc).trace →
      lookup stT e.uid = none) := by
  have hd : destroy st e rc =
      ⟨⟨sortEntities (st.entities.erase e), delKey st.spawnables e.uid,
          st.spawnableFunctions, st.nextUid⟩,
        (if rc then [("teardownRenderContext",
          (⟨sortEntities (st.entities.erase e), delKey st.spawnables e.uid,
            st.spawnableFunctions, st.nextUid⟩ : GameState))] else []) ++
        [("teardown",
          (⟨sortEntities (st.entities.erase e), delKey st.spawnables e.uid,
            st.spawnableFunctions, st.nextUid⟩ : GameState))]⟩ := by
    rw [destroy, if_pos (show ({ st with
      spawnables := delKey st.spawnables e.uid } :
        GameState).entities.contains e = true from he)]
  rw [hd]
  constructor
  · exact ⟨⟨sortEntities (st.entities.erase e), delKey st.spawnables e.uid,
      st.spawnableFunctions, st.nextUid⟩, by simp⟩
  · intro name stT hmem
    have hst : stT = ⟨sortEntities (st.entities.erase e),
        delKey st.spawnables e.uid, st.spawnableFunctions, st.nextUid⟩ := by
      rcases rc with _ | _ <;> simp at hmem
      · exact hmem.2
      · rcases hmem with h | h
        · exact h.2
        · exact h.2
    rw [hst]
    exact lookup_delKey_self st.spawnables e.uid

/-- Witness for C8: destroying the lone entity of a one-entity game. -/
theorem destroy_removes_lookup_before_teardown_witness :
    ((⟨[⟨"u", [], false, 0, none⟩], [("u", ⟨"u", [], false, 0, none⟩)],
        [], 0⟩ : GameState).entities.contains
      (⟨"u", [], false, 0, none⟩ : SpawnedEntity) = true) ∧
    ((∃ stT, ("teardown", stT) ∈
      (destroy ⟨[⟨"u", [], false, 0, none⟩],
        [("u", ⟨"u", [], false, 0, none⟩)], [], 0⟩
        ⟨"u", [], false, 0, none⟩ true).trace) ∧
    (∀ name stT, (name, stT) ∈
      (destroy ⟨[⟨"u", [], false, 0, none⟩],
        [("u", ⟨"u", [], false, 0, none⟩)], [], 0⟩
        ⟨"u", [], false, 0, none⟩ true).trace →
      lookup stT (SpawnedEntity.uid ⟨"u", [], false, 0, none⟩) = none)) :=
  ⟨rfl, destroy_removes_lookup_before_teardown
    ⟨[⟨"u", [], false, 0, none⟩], [("u", ⟨"u", [], false, 0, none⟩)], [], 0⟩
    ⟨"u", [], false, 0, none⟩ true rfl⟩

theorem sortEntities_perm (l : List SpawnedEntity) :
    (sortEntities l).Perm l :=
  List.mergeSort_perm l _

theorem delKey_fresh {β : Type} (m : List (String × β)) (k : String)
    (hf : ∀ p ∈ m, p.1 ≠ k) : delKey m k = m := by
  rw [delKey, List.filter_eq_self]
  intro p hp
  exact bne_iff_ne.mpr (hf p hp)

theorem delKey_append {β : Type} (a b : List (String × β)) (k : String) :
    delKey (a ++ b) k = delKey a k ++ delKey b k :=
  List.filter_append _ _

/-- Claim C9: a successful `spawn` stores the entity both in the internal
entity array (via `instantiate`) and in the UID-indexed spawnable map, so
the `entities` getter — which concatenates the two — returns it exactly
twice (given a fresh UID); `destroy` removes both copies, returning the
count to zero. -/
theorem spawn_lists_entity_twice (st : GameState) (loose : JsonValue)
    (defn : SpawnableDefinition) (u : String) (pv : Bool)
    (hp : parseDefinition loose = .ok defn)
    (hreg : st.spawnableFunctions.contains defn.entity = true)
    (huid : defn.uid = some u)
    (hfresh1 : ∀ x ∈ st.entities, x.uid ≠ u)
    (hfresh2 : ∀ p ∈ st.spawnables, p.1 ≠ u ∧ p.2.uid ≠ u) :
    (spawn st loose pv).result = .ok (some (mkEntity defn u pv)) ∧
    (gameEntities (spawn st loose pv).state).count (mkEntity defn u pv) = 2 ∧
    (gameEntities (destroy (spawn st loose pv).state
      (mkEntity defn u pv) false).state).count (mkEntity defn u pv) = 0 := by
  have hsp : spawn st loose pv =
      ⟨⟨sortEntities (st.entities ++ [mkEntity defn u pv]),
        setKey st.spawnables u (mkEntity defn u pv),
        st.spawnableFunctions, st.nextUid⟩,
        .ok (some (mkEntity defn u pv)), []⟩ := by
    rw [spawn, hp]
    simp [hreg, huid, instantiate]
    exact List.elem_iff.mp hreg
  have h0 : st.entities.count (mkEntity defn u pv) = 0 := by
    rw [List.count_eq_zero]
    intro hmem
    exact hfresh1 _ hmem rfl
  have h1 : (sortEntities (st.entities ++ [mkEntity defn u pv])).count
      (mkEntity defn u pv) = 1 := by
    rw [(sortEntities_perm _).count_eq, List.count_append, h0]
    simp
  have h3 : (st.spawnables.map Prod.snd).count (mkEntity defn u pv) = 0 := by
    rw [List.count_eq_zero]
    intro hmem
    obtain ⟨p, hp2, hpe⟩ := List.mem_map.mp hmem
    exact (hfresh2 p hp2).2 (by rw [hpe]; rfl)
  have h2 : ((setKey st.spawnables u (mkEntity defn u pv)).map
      Prod.snd).count (mkEntity defn u pv) = 1 := by
    rw [setKey_fresh_append _ _ _ fun p hp2 => (hfresh2 p hp2).1,
      List.map_append, List.count_append, h3]
    simp
  have hdel : delKey (setKey st.spawnables u (mkEntity defn u pv)) u =
      st.spawnables := by
    rw [setKey_fresh_append _ _ _ fun p hp2 => (hfresh2 p hp2).1,
      delKey_append, delKey_fresh _ _ fun p hp2 => (hfresh2 p hp2).1]
    simp [delKey]
  have hc : (sortEntities (st.entities ++ [mkEntity defn u pv])).contains
      (mkEntity defn u pv) = true := by
    have hmem : mkEntity defn u pv ∈
        sortEntities (st.entities ++ [mkEntity defn u pv]) :=
      ((sortEntities_perm _).mem_iff).mpr (by simp)
    exact List.elem_iff.mpr hmem
  rw [hsp]
  refine ⟨rfl, ?_, ?_⟩
  · rw [gameEntities, List.count_append, h1, h2]
  · have hdes : destroy
        (⟨sortEntities (st.entities ++ [mkEntity defn u pv]),
          setKey st.spawnables u (mkEntity defn u pv),
          st.spawnableFunctions, st.nextUid⟩ : GameState)
        (mkEntity defn u pv) false =
        ⟨⟨sortEntities ((sortEntities
            (st.entities ++ [mkEntity defn u pv])).erase (mkEntity defn u pv)),
          st.spawnables, st.spawnableFunctions, st.nextUid⟩,
          [("teardown",
            ⟨sortEntities ((sortEntities (st.entities ++
                [mkEntity defn u pv])).erase (mkEntity defn u pv)),
              st.spawnables, st.spawnableFunctions, st.nextUid⟩)]⟩ := by
      rw [destroy, if_pos (show (({ (⟨sortEntities
          (st.entities ++ [mkEntity defn u pv]),
          setKey st.spawnables u (mkEntity defn u pv),
          st.spawnableFunctions, st.nextUid⟩ : GameState) with
          spawnables := delKey (setKey st.spawnables u (mkEntity defn u pv))
            (mkEntity defn u pv).uid } : GameState).entities.contains
          (mkEntity defn u pv) = true) from hc)]
      have : (mkEntity defn u pv).uid = u := rfl
      rw [this, hdel]
      simp
    rw [hdes, gameEntities, List.count_append, h3]
    rw [(sortEntities_perm _).count_eq, List.count_erase_self,
      (sortEntities_perm _).count_eq, List.count_append, h0]
    simp

def looseBox : JsonValue :=
  .obj [("entity", .str "box"), ("uid", .str "u1"),
    ("transform", .obj [("position", .obj [("x", .num 0), ("y", .num 0)]),
      ("rotation", .num 0)]),
    ("args", .arr [])]

def boxDefn : SpawnableDefinition :=
  ⟨"box", some "u1", ⟨0, 0, 0⟩, none, none, []⟩

/-- Witness for C9: spawning one entity with an explicit fresh UID into an
empty game that has `"box"` registered. -/
theorem spawn_lists_entity_twice_witness :
    parseDefinition looseBox = .ok boxDefn ∧
    ((⟨[], [], ["box"], 0⟩ : GameState).spawnableFunctions.contains
      boxDefn.entity = true) ∧
    boxDefn.uid = some "u1" ∧
    (∀ x ∈ (⟨[], [], ["box"], 0⟩ : GameState).entities, x.uid ≠ "u1") ∧
    (∀ p ∈ (⟨[], [], ["box"], 0⟩ : GameState).spawnables,
      p.1 ≠ "u1" ∧ p.2.uid ≠ "u1") ∧
    ((spawn ⟨[], [], ["box"], 0⟩ looseBox false).result =
      .ok (some (mkEntity boxDefn "u1" false)) ∧
    (gameEntities (spawn ⟨[], [], ["box"], 0⟩ looseBox false).state).count
      (mkEntity boxDefn "u1" false) = 2 ∧
    (gameEntities (destroy (spawn ⟨[], [], ["box"], 0⟩ looseBox false).state
      (mkEntity boxDefn "u1" false) false).state).count
      (mkEntity boxDefn "u1" false) = 0) :=
  ⟨rfl, rfl, rfl, by simp, by simp,
    spawn_lists_entity_twice ⟨[], [], ["box"], 0⟩ looseBox boxDefn "u1" false
      rfl rfl rfl (by simp) (by simp)⟩

theorem asStrings_map_str (ts : List String) :
    asStrings (ts.map JsonValue.str) = ts := by
  induction ts with
  | nil => rfl
  | cons a tl ih =>
    simp only [List.map_cons, asStrings, List.filterMap_cons] at ih ⊢
    rw [ih]

theorem isStringArray_map_str (ts : List String) :
    isStringArray (ts.map JsonValue.str) = true := by
  rw [isStringArray, List.all_eq_true]
  intro x hx
  obtain ⟨s, _, rfl⟩ := List.mem_map.mp hx
  rfl

/-- Claim C10: `queryTags('all', tags)` returns exactly the spawnable
entities whose tag set contains every given tag, `queryTags('any', tags)`
exactly those with at least one, in both cases ignoring the preview flag
(the membership characterisations carry no preview condition); a non-array
`tags` argument, or an array holding a non-string, raises a TypeError. -/
theorem queryTags_all_any_spec (st : GameState) (ts : List String) :
    (∃ res, queryTags st .allQ (.arr (ts.map JsonValue.str)) = .ok res ∧
      ∀ e, e ∈ res ↔ e ∈ st.spawnables.map Prod.snd ∧ ∀ t ∈ ts, t ∈ e.tags) ∧
    (∃ res, queryTags st .anyQ (.arr (ts.map JsonValue.str)) = .ok res ∧
      ∀ e, e ∈ res ↔ e ∈ st.spawnables.map Prod.snd ∧ ∃ t ∈ ts, t ∈ e.tags) ∧
    queryTags st .allQ .other = .error "`tags` must be an array" ∧
    queryTags st .anyQ .other = .error "`tags` must be an array" ∧
    (∀ xs, isStringArray xs = false → queryTags st .allQ (.arr xs) =
      .error "`tags` must be an array of strings") ∧
    (∀ xs, isStringArray xs = false → queryTags st .anyQ (.arr xs) =
      .error "`tags` must be an array of strings") := by
  refine ⟨⟨(st.spawnables.map Prod.snd).filter fun e =>
      (asStrings (ts.map JsonValue.str)).all fun t => e.tags.contains t,
      ?_, ?_⟩,
    ⟨(st.spawnables.map Prod.snd).filter fun e =>
      (asStrings (ts.map JsonValue.str)).any fun t => e.tags.contains t,
      ?_, ?_⟩,
    rfl, rfl, fun xs hxs => ?_, fun xs hxs => ?_⟩
  · simp [queryTags, isStringArray_map_str]
  · intro e
    rw [List.mem_filter, asStrings_map_str]
    simp [List.all_eq_true, List.elem_iff]
  · simp [queryTags, isStringArray_map_str]
  · intro e
    rw [List.mem_filter, asStrings_map_str]
    simp [List.any_eq_true, List.elem_iff]
  · simp [queryTags, hxs]
  · simp [queryTags, hxs]

theorem spawn_fns (st : GameState) (d : JsonValue) (pv : Bool) :
    (spawn st d pv).state.spawnableFunctions = st.spawnableFunctions := by
  rw [spawn]
  rcases hpd : parseDefinition d with m | defn
  · rfl
  · rcases hc : st.spawnableFunctions.contains defn.entity
    · have hm : defn.entity ∉ st.spawnableFunctions := by simpa using hc
      simp [hm]
    · have hm : defn.entity ∈ st.spawnableFunctions := by simpa using hc
      rcases hu : defn.uid with _ | u <;> simp [hm, hu, instantiate]

theorem spawn_result_error (st : GameState) (d : JsonValue) (pv : Bool)
    (m : String) (h : parseDefinition d = .error m) :
    (spawn st d pv).result = .error m := by
  rw [spawn, h]

theorem spawn_result_ok (st : GameState) (d : JsonValue) (pv : Bool)
    (defn : SpawnableDefinition) (h : parseDefinition d = .ok defn) :
    ∃ o, (spawn st d pv).result = .ok o := by
  rw [spawn, h]
  rcases hc : st.spawnableFunctions.contains defn.entity
  · have hm : defn.entity ∉ st.spawnableFunctions := by simpa using hc
    exact ⟨none, by simp [hm]⟩
  · have hm : defn.entity ∈ st.spawnableFunctions := by simpa using hc
    rcases hu : defn.uid with _ | u
    · exact ⟨some (mkEntity defn (genUid st.nextUid) pv), by simp [hm, hu]⟩
    · exact ⟨some (mkEntity defn u pv), by simp [hm, hu]⟩

theorem spawn_lookup_self (st : GameState) (d : JsonValue) (pv : Bool)
    (defn : SpawnableDefinition) (u : String)
    (hpd : parseDefinition d = .ok defn)
    (hc : st.spawnableFunctions.contains defn.entity = true)
    (hu : defn.uid = some u) :
    lookup (spawn st d pv).state u = some (mkEntity defn u pv) := by
  have hm : defn.entity ∈ st.spawnableFunctions := by simpa using hc
  rw [spawn, hpd]
  simp only [lookup, hu, instantiate]
  simp [hm]
  exact lookup_setKey_self _ _ _

theorem spawn_lookup_other (st : GameState) (d : JsonValue) (pv : Bool)
    (w : String)
    (hno : ∀ defn, parseDefinition d = .ok defn →
      st.spawnableFunctions.contains defn.entity = true →
      ∃ v, defn.uid = some v ∧ v ≠ w) :
    lookup (spawn st d pv).state w = lookup st w := by
  rw [spawn]
  rcases hpd : parseDefinition d with m | defn
  · rfl
  · rcases hc : st.spawnableFunctions.contains defn.entity
    · have hm : defn.entity ∉ st.spawnableFunctions := by simpa using hc
      simp [hm, lookup]
    · obtain ⟨v, hv, hvw⟩ := hno defn hpd hc
      have hm : defn.entity ∈ st.spawnableFunctions := by simpa using hc
      simp only [lookup, hv, instantiate]
      simp [hm]
      exact lookup_setKey_other _ _ _ _ (Ne.symm hvw)

theorem spawnJobs_lookup_preserve (defs : List JsonValue) (st : GameState)
    (w : String)
    (hno : ∀ d ∈ defs, ∀ defn, parseDefinition d = .ok defn →
      st.spawnableFunctions.contains defn.entity = true →
      ∃ v, defn.uid = some v ∧ v ≠ w) :
    lookup (spawnJobs st defs).1 w = lookup st w := by
  induction defs generalizing st with
  | nil => rfl
  | cons d rest ih =>
    rw [spawnJobs]
    rw [ih (spawn st d false).state fun d' hd' defn hp hc =>
      hno d' (List.mem_cons_of_mem _ hd') defn hp
        (by rw [← spawn_fns st d false]; exact hc)]
    exact spawn_lookup_other st d false w
      (hno d (List.mem_cons_self d rest))

/-- The explicit UID a definition would spawn under, when it parses, names
a registered type and carries one. -/
def goodUid (fns : List String) (d : JsonValue) : Option String :=
  match parseDefinition d with
  | .ok defn => if fns.contains defn.entity then defn.uid else none
  | .error _ => none

/-- The explicit UIDs of the definitions in a batch that parse and name
registered types. -/
def goodUids (fns : List String) (defs : List JsonValue) : List String :=
  defs.filterMap (goodUid fns)

/-- Did this job result deliver a spawned entity? -/
def isSpawnedResult : Except String (Option SpawnedEntity) → Bool
  | .ok (some _) => true
  | _ => false

/-- How many definitions of a batch parse and name a registered type. -/
def goodCount (fns : List String) (defs : List JsonValue) : Nat :=
  defs.countP fun d =>
    match parseDefinition d with
    | .ok defn => fns.contains defn.entity
    | .error _ => false

theorem spawn_result_spawned (st : GameState) (d : JsonValue) (pv : Bool) :
    isSpawnedResult (spawn st d pv).result =
      (match parseDefinition d with
        | .ok defn => st.spawnableFunctions.contains defn.entity
        | .error _ => false) := by
  rw [spawn]
  rcases hpd : parseDefinition d with m | defn
  · rfl
  · rcases hc : st.spawnableFunctions.contains defn.entity
    · have hm : defn.entity ∉ st.spawnableFunctions := by simpa using hc
      simp [hm, isSpawnedResult]
    · have hm : defn.entity ∈ st.spawnableFunctions := by simpa using hc
      rcases hu : defn.uid with _ | u <;> simp [hm, hu, isSpawnedResult]

theorem spawnJobs_spawned_count (defs : List JsonValue) (st : GameState) :
    (spawnJobs st defs).2.countP isSpawnedResult =
      goodCount st.spawnableFunctions defs := by
  induction defs generalizing st with
  | nil => rfl
  | cons d rest ih =>
    simp only [spawnJobs, goodCount, List.countP_cons]
    rw [ih (spawn st d false).state, spawn_result_spawned]
    have hfns : (spawn st d false).state.spawnableFunctions =
        st.spawnableFunctions := spawn_fns st d false
    rw [goodCount, hfns]

theorem spawnJobs_error_of_mem (defs : List JsonValue) (st : GameState)
    (d : JsonValue) (m : String) (hd : d ∈ defs)
    (hp : parseDefinition d = .error m) :
    ∃ mm, firstError (spawnJobs st defs).2 = some mm := by
  induction defs generalizing st with
  | nil => cases hd
  | cons d0 rest ih =>
    simp only [spawnJobs, firstError, List.findSome?_cons]
    rcases List.mem_cons.mp hd with rfl | hdr
    · rw [spawn_result_error st d false m hp]
      exact ⟨m, rfl⟩
    · rcases hr : (spawn st d0 false).result with e | o
      · exact ⟨e, rfl⟩
      · simpa [hr, firstError] using ih (spawn st d0 false).state hdr

theorem spawnJobs_lookup_good (defs : List JsonValue) (st : GameState)
    (hexp : ∀ d ∈ defs, ∀ defn, parseDefinition d = .ok defn →
      st.spawnableFunctions.contains defn.entity = true →
      ∃ u, defn.uid = some u)
    (hnd : (goodUids st.spawnableFunctions defs).Nodup) :
    ∀ d ∈ defs, ∀ defn u, parseDefinition d = .ok defn →
      st.spawnableFunctions.contains defn.entity = true →
      defn.uid = some u →
      ∃ e, lookup (spawnJobs st defs).1 u = some e ∧ e.uid = u := by
  induction defs generalizing st with
  | nil => intro d hd; cases hd
  | cons d0 rest ih =>
    intro d hd defn u hp hc hu
    simp only [spawnJobs]
    rcases List.mem_cons.mp hd with rfl | hdr
    · have hgd : goodUid st.spawnableFunctions d = some u := by
        rw [goodUid, hp]
        simp [hc, hu]
        exact List.elem_iff.mp hc
      have hnd' : u ∉ goodUids st.spawnableFunctions rest ∧
          (goodUids st.spawnableFunctions rest).Nodup := by
        rw [goodUids, List.filterMap_cons, hgd] at hnd
        exact List.nodup_cons.mp hnd
      have hpre : lookup (spawnJobs (spawn st d false).state rest).1 u =
          lookup (spawn st d false).state u := by
        apply spawnJobs_lookup_preserve
        intro d' hd' defn' hp' hc'
        have hc'' : st.spawnableFunctions.contains defn'.entity = true := by
          rw [← spawn_fns st d false]
          exact hc'
        obtain ⟨v, hv⟩ := hexp d' (List.mem_cons_of_mem _ hd') defn' hp' hc''
        refine ⟨v, hv, fun hvw => hnd'.1 ?_⟩
        exact List.mem_filterMap.mpr ⟨d', hd',
          by rw [goodUid, hp']
             simp [hc'', hv, hvw]
             exact List.elem_iff.mp hc''⟩
      rw [hpre]
      exact ⟨mkEntity defn u false,
        spawn_lookup_self st d false defn u hp hc hu, rfl⟩
    · have hndr : (goodUids st.spawnableFunctions rest).Nodup := by
        rw [goodUids, List.filterMap_cons] at hnd
        rcases hg : goodUid st.spawnableFunctions d0 with _ | b
        · rw [hg] at hnd
          exact hnd
        · rw [hg] at hnd
          exact (List.nodup_cons.mp hnd).2
      have hfns := spawn_fns st d0 false
      apply ih (spawn st d0 false).state
      · intro d' hd' defn' hp' hc'
        exact hexp d' (List.mem_cons_of_mem _ hd') defn' hp'
          (by rw [← hfns]; exact hc')
      · rw [goodUids, hfns]
        exact hndr
      · exact hdr
      · exact hp
      · rw [hfns]
        exact hc
      · exact hu

/-- Claim C1 amended: in a batch where every definition either fails
schema validation or names a registered type under an explicit (distinct)
UID, `spawnMany` rejects with the first validation error whenever some
definition fails validation — it does not fulfil with the N−1 list — while
a validation failure still affects only its own definition: every valid
definition of the batch is spawned, its entity reachable through `lookup`
by its UID, and the number of successfully spawned entities equals the
number of valid definitions. -/
theorem spawnMany_amended (st : GameState) (defs : List JsonValue)
    (hexp : ∀ d ∈ defs, ∀ defn, parseDefinition d = .ok defn →
      st.spawnableFunctions.contains defn.entity = true →
      ∃ u, defn.uid = some u)
    (hnd : (goodUids st.spawnableFunctions defs).Nodup) :
    ((∃ d ∈ defs, ∃ m, parseDefinition d = .error m) →
      ∃ m, (spawnMany st defs).2 = .error m) ∧
    (∀ d ∈ defs, ∀ defn u, parseDefinition d = .ok defn →
      st.spawnableFunctions.contains defn.entity = true →
      defn.uid = some u →
      ∃ e, lookup (spawnMany st defs).1 u = some e ∧ e.uid = u) ∧
    (spawnJobs st defs).2.countP isSpawnedResult =
      goodCount st.spawnableFunctions defs := by
  refine ⟨?_, ?_, spawnJobs_spawned_count defs st⟩
  · rintro ⟨d, hd, m, hm⟩
    obtain ⟨mm, hmm⟩ := spawnJobs_error_of_mem defs st d m hd hm
    exact ⟨mm, by simp [spawnMany, hmm]⟩
  · intro d hd defn u hp hc hu
    have h := spawnJobs_lookup_good defs st hexp hnd d hd defn u hp hc hu
    simpa [spawnMany] using h

def looseBad : JsonValue :=
  .obj [("entity", .str "box")]

/-- Counterexample to claim C1 as stated: a batch of two definitions for
the registered type `"box"` where the second fails schema validation. The
sibling is spawned and present in `lookup`, but `spawnMany` rejects with
the validation error instead of returning the one-entity list. -/
theorem spawnMany_one_schema_invalid_rejects :
    parseDefinition looseBox = .ok boxDefn ∧
    parseDefinition looseBad = .error "transform: required" ∧
    ((⟨[], [], ["box"], 0⟩ : GameState).spawnableFunctions.contains
      boxDefn.entity = true) ∧
    (spawnMany ⟨[], [], ["box"], 0⟩ [looseBox, looseBad]).2 =
      .error "transform: required" ∧
    lookup (spawnMany ⟨[], [], ["box"], 0⟩ [looseBox, looseBad]).1 "u1" =
      some (mkEntity boxDefn "u1" false) :=
  ⟨rfl, rfl, rfl, rfl, rfl⟩

/-- Witness for the amended C1 at the counterexample's batch. -/
theorem spawnMany_amended_witness :
    (∀ d ∈ [looseBox, looseBad], ∀ defn, parseDefinition d = .ok defn →
      (⟨[], [], ["box"], 0⟩ : GameState).spawnableFunctions.contains
        defn.entity = true →
      ∃ u, defn.uid = some u) ∧
    (goodUids (⟨[], [], ["box"], 0⟩ : GameState).spawnableFunctions
      [looseBox, looseBad]).Nodup ∧
    (((∃ d ∈ [looseBox, looseBad], ∃ m, parseDefinition d = .error m) →
      ∃ m, (spawnMany ⟨[], [], ["box"], 0⟩ [looseBox, looseBad]).2 =
        .error m) ∧
    (∀ d ∈ [looseBox, looseBad], ∀ defn u, parseDefinition d = .ok defn →
      (⟨[], [], ["box"], 0⟩ : GameState).spawnableFunctions.contains
        defn.entity = true →
      defn.uid = some u →
      ∃ e, lookup (spawnMany ⟨[], [], ["box"], 0⟩
        [looseBox, looseBad]).1 u = some e ∧ e.uid = u) ∧
    (spawnJobs (⟨[], [], ["box"], 0⟩ : GameState)
      [looseBox, looseBad]).2.countP isSpawnedResult =
      goodCount (⟨[], [], ["box"], 0⟩ : GameState).spawnableFunctions
        [looseBox, looseBad]) := by
  have hexp : ∀ d ∈ [looseBox, looseBad], ∀ defn,
      parseDefinition d = .ok defn →
      (⟨[], [], ["box"], 0⟩ : GameState).spawnableFunctions.contains
        defn.entity = true →
      ∃ u, defn.uid = some u := by
    intro d hd defn hp _
    rcases List.mem_cons.mp hd with rfl | hd2
    · rw [show parseDefinition looseBox = .ok boxDefn from rfl] at hp
      injection hp with h
      subst h
      exact ⟨"u1", rfl⟩
    · rcases List.mem_cons.mp hd2 with rfl | hd3
      · rw [show parseDefinition looseBad =
          .error "transform: required" from rfl] at hp
        exact Except.noConfusion hp
      · cases hd3
  have hnd : (goodUids
      (⟨[], [], ["box"], 0⟩ : GameState).spawnableFunctions
      [looseBox, looseBad]).Nodup := by decide
  exact ⟨hexp, hnd,
    spawnMany_amended ⟨[], [], ["box"], 0⟩ [looseBox, looseBad] hexp hnd⟩
